import Mathlib

/-!
Verification of the spec-service event-sourcing core: a shallow embedding of
the domain layer (value objects, aggregate, events), the projection store,
the event store's append sequencing, and the event processor's cursor
arithmetic, together with theorems settling the specification claims.

Modelling conventions:
* Rust `String` is Lean `String`; `str::len` (UTF-8 byte length) is
  `rustByteLen`.
* `Uuid` and `DateTime<Utc>` are opaque identifiers/instants, modelled as
  `Nat` and threaded explicitly where the source calls `Uuid::new_v4()` /
  `Utc::now()`.
* `serde_yaml` well-formedness (an external library the source calls in
  `SpecContent::new`) is abstracted as an explicit parameter
  `yamlOk : String → Bool`; theorems quantify over it.
* Rust panics (`panic!`, `.unwrap()`) are modelled by `Option`/`Replay.panicked`.
-/

namespace SpecService

/-- Opaque 128-bit identifier (`uuid::Uuid`). -/
abbrev Uuid := Nat

/-- UTC timestamp (`chrono::DateTime<Utc>`), opaque to the domain logic. -/
abbrev Instant := Nat

/-- `str::len` in Rust: the UTF-8 byte length of the string. -/
def rustByteLen (s : String) : Nat :=
  s.data.foldl (fun n c => n + c.utf8Size) 0

/-- Rust `char::is_alphanumeric` (Unicode `Alphabetic` or general category
`Nd`/`Nl`/`No`), restricted to code points below U+0100: ASCII alphanumerics
plus, in the Latin-1 supplement, ª µ º ¹ ² ³ ¼ ½ ¾ and the letters
U+00C0–U+00FF except × (U+00D7) and ÷ (U+00F7).  The full Unicode table is
out of scope; theorems about `SpecName` therefore restrict attention to
strings over this range. -/
def rustIsAlphanumeric (c : Char) : Bool :=
  c.isAlphanum ||
  c.toNat == 0xAA || c.toNat == 0xB5 || c.toNat == 0xBA ||
  c.toNat == 0xB2 || c.toNat == 0xB3 || c.toNat == 0xB9 ||
  (0xBC ≤ c.toNat && c.toNat ≤ 0xBE) ||
  (0xC0 ≤ c.toNat && c.toNat ≤ 0xD6) ||
  (0xD8 ≤ c.toNat && c.toNat ≤ 0xF6) ||
  (0xF8 ≤ c.toNat && c.toNat ≤ 0xFF)

/-- `ValidationError` from `domain/value_objects.rs`. -/
inductive ValidationError where
  | emptyName
  | nameTooLong
  | invalidCharacters
  | emptyContent
  | contentTooLarge
  | invalidYaml
deriving DecidableEq

/-- `SpecName` newtype wrapper. -/
structure SpecName where
  val : String
deriving DecidableEq

/-- `SpecName::new` from `domain/value_objects.rs`. -/
def SpecName.new (name : String) : Except ValidationError SpecName :=
  if name.isEmpty then
    .error .emptyName
  else if 255 < rustByteLen name then
    .error .nameTooLong
  else if !(name.data.all fun c => rustIsAlphanumeric c || c == '-' || c == '_' || c == '.') then
    .error .invalidCharacters
  else
    .ok ⟨name⟩

/-- `SpecContent` newtype wrapper. -/
structure SpecContent where
  val : String
deriving DecidableEq

/-- `SpecContent::new` from `domain/value_objects.rs`; `yamlOk` stands for
`serde_yaml::from_str::<serde_yaml::Value>(..).is_ok()`. -/
def SpecContent.new (yamlOk : String → Bool) (content : String) :
    Except ValidationError SpecContent :=
  if content.isEmpty then
    .error .emptyContent
  else if 2048 < rustByteLen content then
    .error .contentTooLarge
  else if !(yamlOk content) then
    .error .invalidYaml
  else
    .ok ⟨content⟩

/-- `Version` newtype wrapper around `u32`. -/
structure Version where
  val : Nat
deriving DecidableEq

/-- `Version::new`. -/
def Version.new (version : Nat) : Version := ⟨version⟩

/-- `Version::initial`. -/
def Version.initial : Version := ⟨1⟩

/-- `Version::increment`. -/
def Version.increment (v : Version) : Version := ⟨v.val + 1⟩

/-- `SpecState` from `domain/events.rs`. -/
inductive SpecState where
  | draft
  | published
  | deprecated
  | deleted
deriving DecidableEq

/-- `SpecCreated` event payload. -/
structure SpecCreated where
  spec_id : Uuid
  name : String
  content : String
  description : Option String
  created_by : String
  created_at : Instant
deriving DecidableEq

/-- `SpecUpdated` event payload. -/
structure SpecUpdated where
  spec_id : Uuid
  version : Nat
  content : String
  description : Option String
  updated_by : String
  updated_at : Instant
deriving DecidableEq

/-- `SpecStateChanged` event payload. -/
structure SpecStateChanged where
  spec_id : Uuid
  version : Nat
  from_state : SpecState
  to_state : SpecState
  reason : Option String
  changed_by : String
  changed_at : Instant
deriving DecidableEq

/-- `SpecEvent` from `domain/events.rs`. -/
inductive SpecEvent where
  | created (e : SpecCreated)
  | updated (e : SpecUpdated)
  | stateChanged (e : SpecStateChanged)
deriving DecidableEq

/-- `DomainError` from `domain/errors.rs`. -/
inductive DomainError where
  | specNotFound (id : Uuid)
  | invalidStateTransition (fromState toState : SpecState)
  | versionMismatch (expected actual : Nat)
  | duplicateSpecName (name : String)
  | invalidStateForOperation (state : SpecState)
  | validationError (e : ValidationError)
  | eventStoreError (msg : String)
  | projectionError (msg : String)
deriving DecidableEq

/-- `CreateSpec` command from `domain/commands.rs`. -/
structure CreateSpec where
  name : String
  content : String
  description : Option String
  created_by : String
deriving DecidableEq

/-- `UpdateSpec` command. -/
structure UpdateSpec where
  spec_id : Uuid
  content : String
  description : Option String
  updated_by : String
deriving DecidableEq

/-- `PublishSpec` command. -/
structure PublishSpec where
  spec_id : Uuid
  version : Option Nat
  published_by : String
deriving DecidableEq

/-- `DeprecateSpec` command. -/
structure DeprecateSpec where
  spec_id : Uuid
  reason : String
  deprecated_by : String
deriving DecidableEq

/-- `DeleteSpec` command. -/
structure DeleteSpec where
  spec_id : Uuid
  deleted_by : String
deriving DecidableEq

/-- `SpecCommand` from `domain/commands.rs`. -/
inductive SpecCommand where
  | create (cmd : CreateSpec)
  | update (cmd : UpdateSpec)
  | publish (cmd : PublishSpec)
  | deprecate (cmd : DeprecateSpec)
  | delete (cmd : DeleteSpec)
deriving DecidableEq

/-- The `Spec` aggregate from `domain/aggregates.rs`. -/
structure Spec where
  id : Uuid
  name : SpecName
  content : SpecContent
  description : Option String
  version : Version
  state : SpecState
  created_at : Instant
  updated_at : Instant
  created_by : String
  updated_by : String
deriving DecidableEq

/-- `Spec::create` (static constructor); `spec_id` and `now` stand for the
`Uuid::new_v4()` / `Utc::now()` calls in the source. -/
def Spec.create (yamlOk : String → Bool) (spec_id : Uuid) (now : Instant)
    (command : CreateSpec) : Except DomainError (List SpecEvent) :=
  match SpecName.new command.name with
  | .error e => .error (.validationError e)
  | .ok name =>
    match SpecContent.new yamlOk command.content with
    | .error e => .error (.validationError e)
    | .ok content =>
      .ok [.created
        { spec_id := spec_id
          name := name.val
          content := content.val
          description := command.description
          created_by := command.created_by
          created_at := now }]

/-- `Spec::handle_update`. -/
def Spec.handle_update (spec : Spec) (yamlOk : String → Bool) (now : Instant)
    (command : UpdateSpec) : Except DomainError (List SpecEvent) :=
  if spec.state = .deleted then
    .error (.invalidStateForOperation spec.state)
  else
    match SpecContent.new yamlOk command.content with
    | .error e => .error (.validationError e)
    | .ok content =>
      .ok [.updated
        { spec_id := spec.id
          version := spec.version.increment.val
          content := content.val
          description := command.description
          updated_by := command.updated_by
          updated_at := now }]

/-- `Spec::handle_publish`: the supplied-version check comes first, then the
state check. -/
def Spec.handle_publish (spec : Spec) (now : Instant) (command : PublishSpec) :
    Except DomainError (List SpecEvent) :=
  let emitted : List SpecEvent :=
    [.stateChanged
      { spec_id := spec.id
        version := spec.version.val
        from_state := spec.state
        to_state := .published
        reason := none
        changed_by := command.published_by
        changed_at := now }]
  match command.version with
  | some v =>
    if v ≠ spec.version.val then
      .error (.versionMismatch spec.version.val v)
    else if spec.state ≠ .draft then
      .error (.invalidStateTransition spec.state .published)
    else
      .ok emitted
  | none =>
    if spec.state ≠ .draft then
      .error (.invalidStateTransition spec.state .published)
    else
      .ok emitted

/-- `Spec::handle_deprecate`. -/
def Spec.handle_deprecate (spec : Spec) (now : Instant) (command : DeprecateSpec) :
    Except DomainError (List SpecEvent) :=
  if spec.state ≠ .published then
    .error (.invalidStateTransition spec.state .deprecated)
  else
    .ok [.stateChanged
      { spec_id := spec.id
        version := spec.version.val
        from_state := spec.state
        to_state := .deprecated
        reason := some command.reason
        changed_by := command.deprecated_by
        changed_at := now }]

/-- `Spec::handle_delete`. -/
def Spec.handle_delete (spec : Spec) (now : Instant) (command : DeleteSpec) :
    Except DomainError (List SpecEvent) :=
  if spec.state = .deleted then
    .error (.invalidStateForOperation spec.state)
  else
    .ok [.stateChanged
      { spec_id := spec.id
        version := spec.version.val
        from_state := spec.state
        to_state := .deleted
        reason := none
        changed_by := command.deleted_by
        changed_at := now }]

/-- `Spec::handle_command` dispatcher. -/
def Spec.handle_command (spec : Spec) (yamlOk : String → Bool) (now : Instant)
    (command : SpecCommand) : Except DomainError (List SpecEvent) :=
  match command with
  | .create _ => .error (.duplicateSpecName spec.name.val)
  | .update cmd => spec.handle_update yamlOk now cmd
  | .publish cmd => spec.handle_publish now cmd
  | .deprecate cmd => spec.handle_deprecate now cmd
  | .delete cmd => spec.handle_delete now cmd

/-- `Spec::apply_event`.  `none` models the two panic sites: applying a
`Created` event to an existing aggregate (`panic!`), and the
`SpecContent::new(..).unwrap()` in the `Updated` arm.  Note that the
`Updated` arm overwrites `description` only when the event carries `Some`. -/
def Spec.apply_event (spec : Spec) (yamlOk : String → Bool) (event : SpecEvent) :
    Option Spec :=
  match event with
  | .created _ => none
  | .updated e =>
    match SpecContent.new yamlOk e.content with
    | .error _ => none
    | .ok content =>
      some { spec with
        content := content
        description := match e.description with
          | some desc => some desc
          | none => spec.description
        version := Version.new e.version
        updated_by := e.updated_by
        updated_at := e.updated_at }
  | .stateChanged e =>
    some { spec with state := e.to_state, updated_at := e.changed_at }

/-- Fold `apply_event` over a list of events, propagating panics. -/
def Spec.apply_all (spec : Spec) (yamlOk : String → Bool) :
    List SpecEvent → Option Spec
  | [] => some spec
  | e :: rest =>
    match spec.apply_event yamlOk e with
    | some s => s.apply_all yamlOk rest
    | none => none

/-- Outcome of `Spec::from_events`: a value, a returned error, or a panic. -/
inductive Replay (α : Type) where
  | ok (value : α)
  | err (e : DomainError)
  | panicked
deriving DecidableEq

/-- The aggregate state built from the `Created` arm of `Spec::from_events`,
before the remaining events are folded. -/
def initialSpec (e : SpecCreated) (name : SpecName) (content : SpecContent) : Spec :=
  { id := e.spec_id
    name := name
    content := content
    description := e.description
    version := Version.initial
    state := .draft
    created_at := e.created_at
    updated_at := e.created_at
    created_by := e.created_by
    updated_by := e.created_by }

/-- `Spec::from_events`. -/
def Spec.from_events (yamlOk : String → Bool) (events : List SpecEvent) :
    Replay Spec :=
  match events with
  | [] => .err (.eventStoreError "No events found")
  | first :: rest =>
    match first with
    | .created e =>
      match SpecName.new e.name with
      | .error er => .err (.validationError er)
      | .ok name =>
        match SpecContent.new yamlOk e.content with
        | .error er => .err (.validationError er)
        | .ok content =>
          match (initialSpec e name content).apply_all yamlOk rest with
          | some s => .ok s
          | none => .panicked
    | _ => .err (.eventStoreError "First event must be Created")

/-- The `spec_projections` row for one aggregate
(`infrastructure/projections.rs`). -/
structure SpecProjection where
  id : Uuid
  name : String
  content : String
  description : Option String
  version : Nat
  state : SpecState
  created_at : Instant
  updated_at : Instant
  created_by : String
  updated_by : String
deriving DecidableEq

/-- The `spec_projections` row inserted by `handle_created`: version 1,
state `"draft"`, both timestamps and principals from the event. -/
def initialRow (e : SpecCreated) : SpecProjection :=
  { id := e.spec_id
    name := e.name
    content := e.content
    description := e.description
    version := 1
    state := .draft
    created_at := e.created_at
    updated_at := e.created_at
    created_by := e.created_by
    updated_by := e.created_by }

/-- The slice of the projection tables belonging to one aggregate: the
(optional) `spec_projections` row and the set of versions present in
`spec_version_history` for that id, kept as a list. -/
structure ProjectionState where
  row : Option SpecProjection
  history : List Nat
deriving DecidableEq

/-- `ProjectionStore::apply_event` restricted to one aggregate's rows.
Each arm mirrors the SQL of `handle_created` / `handle_updated` /
`handle_state_changed`: a primary-key violation aborts the transaction, so an
`.error` leaves the state unchanged; an `UPDATE` with no matching row
succeeds without effect.  `handle_updated` binds the event's `description`
directly, overwriting the column even when it is `None`. -/
def ProjectionState.apply_event (ps : ProjectionState) (event : SpecEvent) :
    Except DomainError ProjectionState :=
  match event with
  | .created e =>
    if ps.row.isSome then
      .error (.projectionError "UNIQUE constraint failed: spec_projections.id")
    else if ps.history.contains 1 then
      .error (.projectionError "UNIQUE constraint failed: spec_version_history")
    else
      .ok { row := some (initialRow e), history := 1 :: ps.history }
  | .updated e =>
    if ps.history.contains e.version then
      .error (.projectionError "UNIQUE constraint failed: spec_version_history")
    else
      .ok
        { row := ps.row.map fun r =>
            { r with
              content := e.content
              description := e.description
              version := e.version
              updated_at := e.updated_at
              updated_by := e.updated_by }
          history := e.version :: ps.history }
  | .stateChanged e =>
    .ok
      { row := ps.row.map fun r =>
          { r with state := e.to_state, updated_at := e.changed_at }
        history := ps.history }

/-- Fold `ProjectionStore::apply_event` over a list of events, stopping at the
first error. -/
def ProjectionState.apply_all : ProjectionState → List SpecEvent →
    Except DomainError ProjectionState
  | ps, [] => .ok ps
  | ps, e :: rest =>
    match ps.apply_event e with
    | .ok ps2 => ps2.apply_all rest
    | .error er => .error er

/-- The projection produced from an empty store by a sequence of events. -/
def projectionOf (events : List SpecEvent) : Except DomainError ProjectionState :=
  ProjectionState.apply_all ⟨none, []⟩ events

/-- `SELECT COALESCE(MAX(sequence_number), 0)` over one aggregate's rows in
the `events` table, modelled by the list of sequence numbers present
(`infrastructure/event_store.rs`). -/
def lastSequence (seqs : List Nat) : Nat := seqs.foldl max 0

/-- `SqliteEventStore::append_events`, restricted to the data the claims are
about: the envelopes it returns, each modelled by its assigned sequence
number (`last_sequence + i + 1` for the i-th event) paired with the event.
Minted event ids and metadata are opaque and omitted. -/
def appendEvents (seqs : List Nat) (events : List SpecEvent) :
    List (Nat × SpecEvent) :=
  events.enum.map fun p => (lastSequence seqs + p.1 + 1, p.2)

/-- The aggregate's rows after a successful (committed) append. -/
def tableAfterAppend (seqs : List Nat) (events : List SpecEvent) : List Nat :=
  seqs ++ (appendEvents seqs events).map Prod.fst

/-- The events a call to `get_all_events(pos, limit)` hands to the processor,
abstracted to each event's apply outcome: `applies` records, per global
position (1-based), whether `ProjectionStore::apply_event` succeeds on the
event stored there (`infrastructure/event_processor.rs`). -/
def batchFrom (applies : List Bool) (pos limit : Nat) : List Bool :=
  (applies.drop pos).take limit

/-- `EventProcessor::process_batch`: the returned `processed_count` is the
number of events in the batch whose apply succeeded; failures are logged and
skipped. -/
def processedCount (batch : List Bool) : Nat := (batch.filter id).length

/-- One iteration of `EventProcessor::start`'s loop on a non-empty batch:
`current_position += processed_count`. -/
def stepPosition (applies : List Bool) (pos limit : Nat) : Nat :=
  pos + processedCount (batchFrom applies pos limit)

/-- Whether the event at global position `i` (1-based) applies successfully. -/
def appliedAt (applies : List Bool) (i : Nat) : Bool :=
  applies.getD (i - 1) false

/-- Iterating the processor loop for `fuel` non-empty batches. -/
def runPositions (applies : List Bool) (limit : Nat) : Nat → Nat → Nat
  | 0, pos => pos
  | fuel + 1, pos => runPositions applies limit fuel (stepPosition applies pos limit)

/-- Is this a `Created` event? -/
def SpecEvent.isCreatedEvent : SpecEvent → Bool
  | .created _ => true
  | _ => false

/-- Number of `Updated` events in a list. -/
def updatedCount (events : List SpecEvent) : Nat :=
  (events.filter fun e =>
    match e with
    | .updated _ => true
    | _ => false).length

/-- The versions carried by the `Updated` events of a list, in order. -/
def updatedVersions (events : List SpecEvent) : List Nat :=
  events.filterMap fun e =>
    match e with
    | .updated u => some u.version
    | _ => none

/-- Event sequences obtainable from the command side: an initial
`Spec::create`, then repeatedly replaying the stream and appending the events
emitted by `Spec::handle_command` on the replayed aggregate. -/
inductive Generated (yamlOk : String → Bool) : List SpecEvent → Prop where
  | create : ∀ (spec_id : Uuid) (now : Instant) (command : CreateSpec)
      (events : List SpecEvent),
      Spec.create yamlOk spec_id now command = .ok events →
      Generated yamlOk events
  | step : ∀ (events : List SpecEvent) (spec : Spec) (now : Instant)
      (command : SpecCommand) (more : List SpecEvent),
      Generated yamlOk events →
      Spec.from_events yamlOk events = .ok spec →
      spec.handle_command yamlOk now command = .ok more →
      Generated yamlOk (events ++ more)

/-- The legal edges of the lifecycle state machine:
Draft → Published, Published → Deprecated, and any non-Deleted state →
Deleted. -/
def legalEdge (a b : SpecState) : Prop :=
  (a = .draft ∧ b = .published) ∨
  (a = .published ∧ b = .deprecated) ∨
  (a ≠ .deleted ∧ b = .deleted)

/-- Agreement of an aggregate and a projection row on every attribute other
than `description`. -/
def MatchesRow (spec : Spec) (r : SpecProjection) : Prop :=
  r.id = spec.id ∧ r.name = spec.name.val ∧ r.content = spec.content.val ∧
  r.version = spec.version.val ∧ r.state = spec.state ∧
  r.created_at = spec.created_at ∧ r.updated_at = spec.updated_at ∧
  r.created_by = spec.created_by ∧ r.updated_by = spec.updated_by

theorem SpecName.new_ok {s : String} {n : SpecName}
    (h : SpecName.new s = .ok n) : n = ⟨s⟩ := by
  unfold SpecName.new at h
  split_ifs at h
  all_goals simp_all

theorem SpecContent.new_ok_val {yamlOk : String → Bool} {s : String} {c : SpecContent}
    (h : SpecContent.new yamlOk s = .ok c) : c = ⟨s⟩ := by
  unfold SpecContent.new at h
  split_ifs at h
  all_goals simp_all

theorem SpecContent.new_ok_again {yamlOk : String → Bool} {s : String}
    {c : SpecContent} (h : SpecContent.new yamlOk s = .ok c) :
    SpecContent.new yamlOk c.val = .ok c := by
  have hv := SpecContent.new_ok_val h
  subst hv
  exact h

theorem Spec.apply_all_append (yamlOk : String → Bool) (spec : Spec)
    (l1 l2 : List SpecEvent) :
    spec.apply_all yamlOk (l1 ++ l2) =
      match spec.apply_all yamlOk l1 with
      | some s => s.apply_all yamlOk l2
      | none => none := by
  induction l1 generalizing spec with
  | nil => rfl
  | cons e rest ih =>
    simp only [List.cons_append, Spec.apply_all]
    cases spec.apply_event yamlOk e with
    | none => rfl
    | some s => exact ih s

theorem Spec.from_events_append {yamlOk : String → Bool} {es : List SpecEvent}
    {spec : Spec} (h : Spec.from_events yamlOk es = .ok spec)
    (more : List SpecEvent) :
    Spec.from_events yamlOk (es ++ more) =
      match spec.apply_all yamlOk more with
      | some s => Replay.ok s
      | none => Replay.panicked := by
  match es with
  | [] => simp [Spec.from_events] at h
  | .created e :: rest =>
    unfold Spec.from_events at h ⊢
    simp only [List.cons_append]
    dsimp only at h ⊢
    cases hn : SpecName.new e.name with
    | error er => rw [hn] at h; cases h
    | ok name =>
      rw [hn] at h
      dsimp only at h
      cases hc : SpecContent.new yamlOk e.content with
      | error er => rw [hc] at h; cases h
      | ok content =>
        rw [hc] at h
        dsimp only at h
        dsimp only
        cases ha : (initialSpec e name content).apply_all yamlOk rest with
        | none => rw [ha] at h; cases h
        | some s =>
          rw [ha] at h
          cases h
          rw [Spec.apply_all_append, ha]
  | .updated e :: rest => cases h
  | .stateChanged e :: rest => cases h

theorem lastSequence_range (n : Nat) : lastSequence (List.range' 1 n) = n := by
  induction n with
  | zero => rfl
  | succ k ih =>
    rw [List.range'_concat]
    unfold lastSequence at ih ⊢
    rw [List.foldl_append, ih]
    simp [Nat.max_eq_right, Nat.mul_one]
    omega

/-- A yaml validator accepting everything; used to instantiate `yamlOk` at
concrete inputs (all concrete contents below are well-formed YAML). -/
def yamlAny : String → Bool := fun _ => true

/-- Concrete `Created` event used by witnesses. -/
def ev0W : SpecCreated :=
  { spec_id := 7, name := "auth", content := "a: 1", description := some "d",
    created_by := "u1", created_at := 10 }

/-- Concrete `Updated` event with `description = none`. -/
def upNoneW : SpecUpdated :=
  { spec_id := 7, version := 2, content := "a: 2", description := none,
    updated_by := "u2", updated_at := 20 }

/-- Concrete `Updated` event with `description = some`. -/
def upSomeW : SpecUpdated :=
  { spec_id := 7, version := 2, content := "a: 2", description := some "d2",
    updated_by := "u2", updated_at := 20 }

/-- Concrete `StateChanged` event. -/
def scW : SpecStateChanged :=
  { spec_id := 7, version := 1, from_state := .draft, to_state := .published,
    reason := none, changed_by := "u1", changed_at := 30 }

/-- A concrete aggregate in `Draft` state. -/
def specDraftW : Spec :=
  { id := 7, name := ⟨"auth"⟩, content := ⟨"a: 1"⟩, description := none,
    version := ⟨1⟩, state := .draft, created_at := 0, updated_at := 0,
    created_by := "u1", updated_by := "u1" }

/-- A concrete aggregate in `Published` state. -/
def specPubW : Spec :=
  { id := 7, name := ⟨"auth"⟩, content := ⟨"a: 1"⟩, description := none,
    version := ⟨1⟩, state := .published, created_at := 0, updated_at := 0,
    created_by := "u1", updated_by := "u1" }

/-- A concrete aggregate whose description is `some "d"`. -/
def specDescW : Spec :=
  { id := 7, name := ⟨"auth"⟩, content := ⟨"a: 1"⟩, description := some "d",
    version := ⟨1⟩, state := .draft, created_at := 0, updated_at := 0,
    created_by := "u1", updated_by := "u1" }

/-- C3 counterexample: applying an `Updated` event whose `description` is
`None` does NOT set the aggregate's description to `None`; the old
description survives, contradicting the claim. -/
theorem apply_updated_description_cex :
    ∃ s, specDescW.apply_event yamlAny (.updated upNoneW) = some s
      ∧ upNoneW.description = none
      ∧ s.description = some "d"
      ∧ s.description ≠ none :=
  ⟨_, rfl, rfl, rfl, by decide⟩

/-- C3 (amended): the `Updated` arm of `apply_event` sets content, version,
updater and timestamp from the event; the description is overwritten only
when the event carries `Some`, and is retained when the event carries
`None`. -/
theorem apply_updated_fields_amended (yamlOk : String → Bool) (spec : Spec)
    (e : SpecUpdated) (c : SpecContent)
    (h : SpecContent.new yamlOk e.content = .ok c) :
    ∃ s, spec.apply_event yamlOk (.updated e) = some s
      ∧ s.content.val = e.content
      ∧ s.version.val = e.version
      ∧ s.updated_by = e.updated_by
      ∧ s.updated_at = e.updated_at
      ∧ (∀ d, e.description = some d → s.description = some d)
      ∧ (e.description = none → s.description = spec.description)
      ∧ s.id = spec.id ∧ s.name = spec.name ∧ s.state = spec.state
      ∧ s.created_at = spec.created_at ∧ s.created_by = spec.created_by := by
  have hc := SpecContent.new_ok_val h
  subst hc
  unfold Spec.apply_event
  dsimp only
  rw [h]
  refine ⟨_, rfl, rfl, rfl, rfl, rfl, ?_, ?_, rfl, rfl, rfl, rfl, rfl⟩
  · intro d hd
    simp [hd]
  · intro hd
    simp [hd]

/-- C3 witness: the amended theorem applied at a concrete aggregate and a
concrete `Updated` event carrying a description. -/
theorem apply_updated_fields_amended_witness :
    ∃ s, specDraftW.apply_event yamlAny (.updated upSomeW) = some s
      ∧ s.content.val = upSomeW.content
      ∧ s.version.val = upSomeW.version
      ∧ s.updated_by = upSomeW.updated_by
      ∧ s.updated_at = upSomeW.updated_at
      ∧ (∀ d, upSomeW.description = some d → s.description = some d)
      ∧ (upSomeW.description = none → s.description = specDraftW.description)
      ∧ s.id = specDraftW.id ∧ s.name = specDraftW.name ∧ s.state = specDraftW.state
      ∧ s.created_at = specDraftW.created_at ∧ s.created_by = specDraftW.created_by :=
  apply_updated_fields_amended yamlAny specDraftW upSomeW ⟨"a: 2"⟩ rfl

/-- C4 counterexample: `SpecName::new` accepts `"é"`, whose only character is
outside `[A-Za-z0-9._-]` (the second conjunct states, via Lean's ASCII
`Char.isAlphanum`, that `é` is not in that class), so validation is not the
claimed ASCII rule. -/
theorem spec_name_unicode_cex :
    SpecName.new "é" = .ok ⟨"é"⟩
    ∧ SpecName.new "é" ≠ .error .invalidCharacters
    ∧ ('é'.isAlphanum || 'é' == '-' || 'é' == '_' || 'é' == '.') = false :=
  ⟨rfl, fun h => Except.noConfusion (rfl.symm.trans h), by decide⟩

/-- C4 (amended): for strings over the modelled character range,
`SpecName::new` succeeds iff the string is non-empty, at most 255 UTF-8
bytes, and every character is Rust-alphanumeric (Unicode) or one of `-_.`;
the checks run in the order empty, byte length, character set, which fixes
the error returned. -/
theorem spec_name_validation_amended (s : String)
    (hrange : ∀ c ∈ s.data, c.toNat < 256) :
    (s = "" → SpecName.new s = .error .emptyName)
    ∧ (s ≠ "" → 255 < rustByteLen s → SpecName.new s = .error .nameTooLong)
    ∧ (s ≠ "" → rustByteLen s ≤ 255 →
        (¬ ∀ c ∈ s.data,
          (rustIsAlphanumeric c || c == '-' || c == '_' || c == '.') = true) →
        SpecName.new s = .error .invalidCharacters)
    ∧ ((∃ n, SpecName.new s = .ok n ∧ n.val = s) ↔
        (s ≠ "" ∧ rustByteLen s ≤ 255 ∧
          ∀ c ∈ s.data,
            (rustIsAlphanumeric c || c == '-' || c == '_' || c == '.') = true)) := by
  clear hrange
  refine ⟨?_, ?_, ?_, ?_⟩
  · intro he
    subst he
    rfl
  · intro he hl
    have h1 : ¬ (s.isEmpty = true) := fun hb => he ((String.isEmpty_iff s).mp hb)
    unfold SpecName.new
    rw [if_neg h1, if_pos hl]
  · intro he hl hall
    have h1 : ¬ (s.isEmpty = true) := fun hb => he ((String.isEmpty_iff s).mp hb)
    have h2 : ¬ (255 < rustByteLen s) := by omega
    have hv : (s.data.all fun c =>
        rustIsAlphanumeric c || c == '-' || c == '_' || c == '.') = false := by
      cases hb : s.data.all fun c =>
          rustIsAlphanumeric c || c == '-' || c == '_' || c == '.'
      · rfl
      · exact absurd (List.all_eq_true.mp hb) hall
    unfold SpecName.new
    rw [if_neg h1, if_neg h2, if_pos (by simp [hv])]
  · constructor
    · rintro ⟨n, hn, -⟩
      unfold SpecName.new at hn
      by_cases h1 : s.isEmpty = true
      · rw [if_pos h1] at hn
        exact Except.noConfusion hn
      rw [if_neg h1] at hn
      by_cases h2 : 255 < rustByteLen s
      · rw [if_pos h2] at hn
        exact Except.noConfusion hn
      rw [if_neg h2] at hn
      by_cases h3 : (!(s.data.all fun c =>
          rustIsAlphanumeric c || c == '-' || c == '_' || c == '.')) = true
      · rw [if_pos h3] at hn
        exact Except.noConfusion hn
      have hall : (s.data.all fun c =>
          rustIsAlphanumeric c || c == '-' || c == '_' || c == '.') = true := by
        cases hb : s.data.all fun c =>
            rustIsAlphanumeric c || c == '-' || c == '_' || c == '.'
        · exact absurd (by rw [hb]; rfl) h3
        · rfl
      exact ⟨fun he => h1 ((String.isEmpty_iff s).mpr he), by omega,
        List.all_eq_true.mp hall⟩
    · rintro ⟨he, hl, hall⟩
      have h1 : ¬ (s.isEmpty = true) := fun hb => he ((String.isEmpty_iff s).mp hb)
      have h2 : ¬ (255 < rustByteLen s) := by omega
      have hv : (s.data.all fun c =>
          rustIsAlphanumeric c || c == '-' || c == '_' || c == '.') = true :=
        List.all_eq_true.mpr hall
      refine ⟨⟨s⟩, ?_, rfl⟩
      unfold SpecName.new
      rw [if_neg h1, if_neg h2, if_neg (by simp [hv])]

/-- C4 witness: the amended characterization applied to the concrete valid
name `"ab.c"`. -/
theorem spec_name_validation_amended_witness :
    ∃ n, SpecName.new "ab.c" = .ok n ∧ n.val = "ab.c" :=
  ((spec_name_validation_amended "ab.c" (by decide)).2.2.2).mpr (by decide)

/-- C6: when the aggregate's `events` table holds sequence numbers `1..n`,
`append_events` of `m` events assigns them `n+1, ..., n+m` in order (the
envelopes carry exactly those numbers), and the table afterwards holds
exactly `1..(n+m)`: density is preserved with no gaps or duplicates. -/
theorem append_sequences_dense (n : Nat) (events : List SpecEvent) :
    (appendEvents (List.range' 1 n) events).map Prod.fst =
      List.range' (n + 1) events.length
    ∧ tableAfterAppend (List.range' 1 n) events =
      List.range' 1 (n + events.length) := by
  have hmap : (appendEvents (List.range' 1 n) events).map Prod.fst =
      List.range' (n + 1) events.length := by
    unfold appendEvents
    rw [lastSequence_range, List.map_map]
    have hfun : (Prod.fst ∘ fun p : Nat × SpecEvent => (n + p.1 + 1, p.2)) =
        (fun i => (n + 1) + i) ∘ Prod.fst := by
      funext p
      simp only [Function.comp]
      omega
    rw [hfun, ← List.map_map, List.enum_map_fst, List.range'_eq_map_range]
  refine ⟨hmap, ?_⟩
  unfold tableAfterAppend
  rw [hmap]
  have happ := List.range'_append_1 1 n events.length
  rw [Nat.add_comm 1 n] at happ
  rw [happ, Nat.add_comm events.length n]

/-- C7 counterexample: with two pending events where the first fails to apply
and the second succeeds, the loop advances the cursor by the success count
(to position 1), so the failed event at position 1 lies at or below the new
cursor yet was never applied, and the succeeded event at position 2 is
refetched by the next batch (applied a second time) — refuting exactly-once
application below the cursor. -/
theorem cursor_skips_failed_event_cex :
    stepPosition [false, true] 0 100 = 1
    ∧ appliedAt [false, true] 1 = false
    ∧ batchFrom [false, true] 0 100 = [false, true]
    ∧ batchFrom [false, true] 1 100 = [true] := by
  refine ⟨?_, ?_, ?_, ?_⟩ <;> rfl

/-- C7 (amended): the cursor never moves backward — a batch step and any
number of loop iterations only increase it — and when every event in the
fetched batch applies successfully the cursor advances by the batch length
and every position in `(pos, newpos]` has been applied.  When an event in
the middle of a batch fails, the cursor can advance past it (it is skipped,
not retried) while later successes are refetched, so exactly-once below the
cursor does not hold in general. -/
theorem cursor_advance_amended (applies : List Bool) (pos limit : Nat) :
    pos ≤ stepPosition applies pos limit
    ∧ (∀ fuel, pos ≤ runPositions applies limit fuel pos)
    ∧ ((∀ b ∈ batchFrom applies pos limit, b = true) →
        stepPosition applies pos limit = pos + (batchFrom applies pos limit).length
        ∧ ∀ i, pos < i → i ≤ stepPosition applies pos limit →
            appliedAt applies i = true) := by
  have hstep : ∀ q, q ≤ stepPosition applies q limit := fun q =>
    Nat.le_add_right q _
  have hrun : ∀ fuel q, q ≤ runPositions applies limit fuel q := by
    intro fuel
    induction fuel with
    | zero => intro q; exact Nat.le_refl q
    | succ k ih =>
      intro q
      exact Nat.le_trans (hstep q) (ih (stepPosition applies q limit))
  refine ⟨hstep pos, fun fuel => hrun fuel pos, ?_⟩
  intro hall
  have hfull : stepPosition applies pos limit =
      pos + (batchFrom applies pos limit).length := by
    unfold stepPosition processedCount
    rw [List.filter_eq_self.mpr (fun b hb => by rw [hall b hb]; rfl)]
  refine ⟨hfull, ?_⟩
  intro i hlo hhi
  rw [hfull] at hhi
  have hjlt : i - 1 - pos < (batchFrom applies pos limit).length := by omega
  have hlenb : (batchFrom applies pos limit).length ≤ applies.length - pos := by
    unfold batchFrom
    rw [List.length_take, List.length_drop]
    exact Nat.min_le_right _ _
  have hbound : pos + (i - 1 - pos) < applies.length := by omega
  have hval : (batchFrom applies pos limit).get ⟨i - 1 - pos, hjlt⟩ =
      applies.get ⟨pos + (i - 1 - pos), hbound⟩ := by
    unfold batchFrom
    simp
  have htrue := hall _ (List.get_mem (batchFrom applies pos limit) _ hjlt)
  rw [hval] at htrue
  unfold appliedAt
  rw [show i - 1 = pos + (i - 1 - pos) by omega]
  rw [List.getD_eq_getElem?_getD, List.getElem?_eq_getElem hbound]
  simpa using htrue

/-- C7 witness: the amended theorem applied to a fully-successful batch of
two events at cursor 0. -/
theorem cursor_advance_amended_witness :
    0 ≤ stepPosition [true, true] 0 100
    ∧ (∀ fuel, 0 ≤ runPositions [true, true] 100 fuel 0)
    ∧ (stepPosition [true, true] 0 100 = 0 + (batchFrom [true, true] 0 100).length
       ∧ ∀ i, 0 < i → i ≤ stepPosition [true, true] 0 100 →
           appliedAt [true, true] i = true) :=
  ⟨(cursor_advance_amended [true, true] 0 100).1,
   (cursor_advance_amended [true, true] 0 100).2.1,
   (cursor_advance_amended [true, true] 0 100).2.2 (by decide)⟩

/-- C8: `from_events` fails with an `EventStoreError` on the empty list and
when the first event is not `Created`; when the first event is `Created`
(and its name and content validate), the state from which the remaining
events are folded has version 1, state `Draft`, both timestamps equal to the
`Created` timestamp, and both principals equal to the creator. -/
theorem from_events_initial_state (yamlOk : String → Bool) :
    Spec.from_events yamlOk [] = .err (.eventStoreError "No events found")
    ∧ (∀ first rest, first.isCreatedEvent = false →
        Spec.from_events yamlOk (first :: rest) =
          .err (.eventStoreError "First event must be Created"))
    ∧ (∀ e rest name content,
        SpecName.new e.name = .ok name →
        SpecContent.new yamlOk e.content = .ok content →
        Spec.from_events yamlOk (.created e :: rest) =
          (match (initialSpec e name content).apply_all yamlOk rest with
           | some s => Replay.ok s
           | none => Replay.panicked)
        ∧ (initialSpec e name content).version.val = 1
        ∧ (initialSpec e name content).state = .draft
        ∧ (initialSpec e name content).created_at = e.created_at
        ∧ (initialSpec e name content).updated_at = e.created_at
        ∧ (initialSpec e name content).created_by = e.created_by
        ∧ (initialSpec e name content).updated_by = e.created_by) := by
  refine ⟨rfl, ?_, ?_⟩
  · intro first rest h
    cases first with
    | created e => simp [SpecEvent.isCreatedEvent] at h
    | updated e => rfl
    | stateChanged e => rfl
  · intro e rest name content hn hc
    refine ⟨?_, rfl, rfl, rfl, rfl, rfl, rfl⟩
    unfold Spec.from_events
    dsimp only
    rw [hn]
    dsimp only
    rw [hc]

/-- C8 witness: the theorem applied to a stream starting with a
`StateChanged` event, and to a concrete `Created` event. -/
theorem from_events_initial_state_witness :
    Spec.from_events yamlAny [.stateChanged scW] =
      .err (.eventStoreError "First event must be Created")
    ∧ (initialSpec ev0W ⟨"auth"⟩ ⟨"a: 1"⟩).version.val = 1 :=
  ⟨(from_events_initial_state yamlAny).2.1 (.stateChanged scW) [] rfl,
   ((from_events_initial_state yamlAny).2.2 ev0W [] ⟨"auth"⟩ ⟨"a: 1"⟩ rfl rfl).2.1⟩

/-- C9: `handle_publish` with a supplied version `v` returns
`VersionMismatch{expected = current, actual = v}` whenever `v` differs from
the current version (and emits nothing); when `v` equals the current version
and the state is `Draft` it emits exactly
`StateChanged(Draft → Published, reason = None, version = current)`. -/
theorem publish_version_check (now : Instant) (spec : Spec) (v : Nat) (p : String) :
    (v ≠ spec.version.val →
      spec.handle_publish now { spec_id := spec.id, version := some v, published_by := p }
        = .error (.versionMismatch spec.version.val v))
    ∧ (v = spec.version.val → spec.state = .draft →
      spec.handle_publish now { spec_id := spec.id, version := some v, published_by := p }
        = .ok [.stateChanged
            { spec_id := spec.id
              version := spec.version.val
              from_state := .draft
              to_state := .published
              reason := none
              changed_by := p
              changed_at := now }]) := by
  constructor
  · intro h
    simp [Spec.handle_publish, h]
  · intro h1 h2
    simp [Spec.handle_publish, h1, h2]

/-- C9 witness: the version check at a concrete draft aggregate, both for a
mismatched and for a matching supplied version. -/
theorem publish_version_check_witness :
    specDraftW.handle_publish 5 { spec_id := specDraftW.id, version := some 2, published_by := "u9" }
      = .error (.versionMismatch specDraftW.version.val 2)
    ∧ specDraftW.handle_publish 5 { spec_id := specDraftW.id, version := some 1, published_by := "u9" }
      = .ok [.stateChanged
          { spec_id := specDraftW.id
            version := specDraftW.version.val
            from_state := .draft
            to_state := .published
            reason := none
            changed_by := "u9"
            changed_at := 5 }] :=
  ⟨(publish_version_check 5 specDraftW 2 "u9").1 (by decide),
   (publish_version_check 5 specDraftW 1 "u9").2 rfl rfl⟩

theorem Spec.create_ok {yamlOk : String → Bool} {i : Uuid} {now : Instant}
    {cmd : CreateSpec} {events : List SpecEvent}
    (h : Spec.create yamlOk i now cmd = .ok events) :
    ∃ name content, SpecName.new cmd.name = .ok name
      ∧ SpecContent.new yamlOk cmd.content = .ok content
      ∧ events = [.created
          { spec_id := i, name := name.val, content := content.val,
            description := cmd.description, created_by := cmd.created_by,
            created_at := now }] := by
  unfold Spec.create at h
  cases hn : SpecName.new cmd.name with
  | error er => rw [hn] at h; exact Except.noConfusion h
  | ok name =>
    rw [hn] at h
    dsimp only at h
    cases hc : SpecContent.new yamlOk cmd.content with
    | error er => rw [hc] at h; exact Except.noConfusion h
    | ok content =>
      rw [hc] at h
      dsimp only at h
      cases h
      exact ⟨name, content, rfl, rfl, rfl⟩

theorem Spec.handle_update_ok {spec : Spec} {yamlOk : String → Bool}
    {now : Instant} {cmd : UpdateSpec} {events : List SpecEvent}
    (h : spec.handle_update yamlOk now cmd = .ok events) :
    ∃ c, SpecContent.new yamlOk cmd.content = .ok c
      ∧ spec.state ≠ .deleted
      ∧ events = [.updated
          { spec_id := spec.id, version := spec.version.val + 1,
            content := c.val, description := cmd.description,
            updated_by := cmd.updated_by, updated_at := now }] := by
  unfold Spec.handle_update at h
  split_ifs at h with h1
  cases hc : SpecContent.new yamlOk cmd.content with
  | error er => rw [hc] at h; exact Except.noConfusion h
  | ok c =>
    rw [hc] at h
    dsimp only at h
    cases h
    exact ⟨c, rfl, h1, rfl⟩

theorem Spec.handle_publish_ok {spec : Spec} {now : Instant}
    {cmd : PublishSpec} {events : List SpecEvent}
    (h : spec.handle_publish now cmd = .ok events) :
    spec.state = .draft
    ∧ events = [.stateChanged
        { spec_id := spec.id, version := spec.version.val,
          from_state := spec.state, to_state := .published, reason := none,
          changed_by := cmd.published_by, changed_at := now }] := by
  unfold Spec.handle_publish at h
  cases hv : cmd.version with
  | some v =>
    rw [hv] at h
    dsimp only at h
    split_ifs at h with h1 h2
    cases h
    exact ⟨not_not.mp h2, rfl⟩
  | none =>
    rw [hv] at h
    dsimp only at h
    split_ifs at h with h1
    cases h
    exact ⟨not_not.mp h1, rfl⟩

theorem Spec.handle_deprecate_ok {spec : Spec} {now : Instant}
    {cmd : DeprecateSpec} {events : List SpecEvent}
    (h : spec.handle_deprecate now cmd = .ok events) :
    spec.state = .published
    ∧ events = [.stateChanged
        { spec_id := spec.id, version := spec.version.val,
          from_state := spec.state, to_state := .deprecated,
          reason := some cmd.reason, changed_by := cmd.deprecated_by,
          changed_at := now }] := by
  unfold Spec.handle_deprecate at h
  split_ifs at h with h1
  cases h
  exact ⟨not_not.mp h1, rfl⟩

theorem Spec.handle_delete_ok {spec : Spec} {now : Instant}
    {cmd : DeleteSpec} {events : List SpecEvent}
    (h : spec.handle_delete now cmd = .ok events) :
    spec.state ≠ .deleted
    ∧ events = [.stateChanged
        { spec_id := spec.id, version := spec.version.val,
          from_state := spec.state, to_state := .deleted, reason := none,
          changed_by := cmd.deleted_by, changed_at := now }] := by
  unfold Spec.handle_delete at h
  split_ifs at h with h1
  cases h
  exact ⟨h1, rfl⟩

theorem Spec.handle_command_edges {spec : Spec} {yamlOk : String → Bool}
    {now : Instant} {cmd : SpecCommand} {events : List SpecEvent}
    (h : spec.handle_command yamlOk now cmd = .ok events) :
    ∀ e, SpecEvent.stateChanged e ∈ events →
      legalEdge e.from_state e.to_state := by
  intro e he
  cases cmd with
  | create c => exact Except.noConfusion h
  | update c =>
    obtain ⟨c2, -, -, rfl⟩ := Spec.handle_update_ok h
    simp at he
  | publish c =>
    obtain ⟨hs, rfl⟩ := Spec.handle_publish_ok h
    simp only [List.mem_singleton] at he
    cases he
    exact Or.inl ⟨hs, rfl⟩
  | deprecate c =>
    obtain ⟨hs, rfl⟩ := Spec.handle_deprecate_ok h
    simp only [List.mem_singleton] at he
    cases he
    exact Or.inr (Or.inl ⟨hs, rfl⟩)
  | delete c =>
    obtain ⟨hs, rfl⟩ := Spec.handle_delete_ok h
    simp only [List.mem_singleton] at he
    cases he
    exact Or.inr (Or.inr ⟨hs, rfl⟩)

theorem Generated.edges {yamlOk : String → Bool} {es : List SpecEvent}
    (hg : Generated yamlOk es) :
    ∀ e, SpecEvent.stateChanged e ∈ es → legalEdge e.from_state e.to_state := by
  induction hg with
  | create i now cmd events h =>
    obtain ⟨name, content, -, -, rfl⟩ := Spec.create_ok h
    intro e he
    simp at he
  | step events spec now cmd more hg hfe hcmd ih =>
    intro e he
    rcases List.mem_append.mp he with h1 | h2
    · exact ih e h1
    · exact Spec.handle_command_edges hcmd e h2

/-- C1 counterexample: invoking Publish on a `Published` aggregate with a
mismatched supplied version returns `VersionMismatch`, not the
`InvalidStateTransition{from, to}` the claim promises for every Publish from
a non-Draft state. -/
theorem publish_nondraft_not_transition_error_cex :
    specPubW.state ≠ .draft
    ∧ specPubW.handle_command yamlAny 5
        (.publish { spec_id := 7, version := some 2, published_by := "u1" })
        = .error (.versionMismatch 1 2)
    ∧ DomainError.versionMismatch 1 2 ≠
        .invalidStateTransition specPubW.state .published :=
  ⟨by decide, rfl, by decide⟩

/-- C1 (amended): `handle_command` emits `StateChanged` only along the legal
edges Draft→Published (Publish), Published→Deprecated (Deprecate) and
non-Deleted→Deleted (Delete); Deprecate from a non-Published state returns
`InvalidStateTransition{from, to}` and emits nothing; Publish from a
non-Draft state returns `InvalidStateTransition{from, to}` when the supplied
version is absent or equal to the current version, and `VersionMismatch`
otherwise (the version check runs first); an aggregate replayed from
command-emitted events never contains a `StateChanged` event along an
illegal edge. -/
theorem state_machine_edges_amended (yamlOk : String → Bool) (now : Instant) :
    (∀ (spec : Spec) (cmd : SpecCommand) (events : List SpecEvent),
        spec.handle_command yamlOk now cmd = .ok events →
        ∀ e, SpecEvent.stateChanged e ∈ events →
          legalEdge e.from_state e.to_state)
    ∧ (∀ (spec : Spec) (cmd : DeprecateSpec), spec.state ≠ .published →
        spec.handle_deprecate now cmd =
          .error (.invalidStateTransition spec.state .deprecated))
    ∧ (∀ (spec : Spec) (cmd : PublishSpec), spec.state ≠ .draft →
        ((cmd.version = none ∨ cmd.version = some spec.version.val) →
          spec.handle_publish now cmd =
            .error (.invalidStateTransition spec.state .published))
        ∧ (∀ v, cmd.version = some v → v ≠ spec.version.val →
          spec.handle_publish now cmd =
            .error (.versionMismatch spec.version.val v)))
    ∧ (∀ es, Generated yamlOk es →
        ∀ e, SpecEvent.stateChanged e ∈ es →
          legalEdge e.from_state e.to_state) := by
  refine ⟨?_, ?_, ?_, ?_⟩
  · intro spec cmd events h
    exact Spec.handle_command_edges h
  · intro spec cmd hs
    unfold Spec.handle_deprecate
    rw [if_pos hs]
  · intro spec cmd hs
    constructor
    · rintro (hv | hv) <;>
        (unfold Spec.handle_publish; rw [hv]; dsimp only)
      · rw [if_pos hs]
      · rw [if_neg (by simp), if_pos hs]
    · intro v hv hne
      unfold Spec.handle_publish
      rw [hv]
      dsimp only
      rw [if_pos hne]
  · intro es hg
    exact hg.edges

/-- Concrete `StateChanged` event emitted by publishing `specDraftW`. -/
def pubEvW : SpecStateChanged :=
  { spec_id := 7, version := 1, from_state := .draft, to_state := .published,
    reason := none, changed_by := "u9", changed_at := 3 }

/-- C1 witness: the amended theorem applied at concrete aggregates — a
successful publish from Draft whose emitted edge is legal, a deprecate from
Draft rejected with `InvalidStateTransition`, and a publish from Published
(version absent) rejected with `InvalidStateTransition`. -/
theorem state_machine_edges_amended_witness :
    (∀ e, SpecEvent.stateChanged e ∈ [SpecEvent.stateChanged pubEvW] →
      legalEdge e.from_state e.to_state)
    ∧ specDraftW.handle_deprecate 3 { spec_id := 7, reason := "r", deprecated_by := "u9" }
        = .error (.invalidStateTransition specDraftW.state .deprecated)
    ∧ specPubW.handle_publish 3 { spec_id := 7, version := none, published_by := "u9" }
        = .error (.invalidStateTransition specPubW.state .published) :=
  ⟨(state_machine_edges_amended yamlAny 3).1 specDraftW
      (.publish { spec_id := 7, version := none, published_by := "u9" })
      [.stateChanged pubEvW] rfl,
   (state_machine_edges_amended yamlAny 3).2.1 specDraftW
      { spec_id := 7, reason := "r", deprecated_by := "u9" } (by decide),
   ((state_machine_edges_amended yamlAny 3).2.2.1 specPubW
      { spec_id := 7, version := none, published_by := "u9" } (by decide)).1
      (Or.inl rfl)⟩

theorem updatedCount_append (l1 l2 : List SpecEvent) :
    updatedCount (l1 ++ l2) = updatedCount l1 + updatedCount l2 := by
  unfold updatedCount
  rw [List.filter_append, List.length_append]

theorem generated_version_count (yamlOk : String → Bool) {es : List SpecEvent}
    (hg : Generated yamlOk es) :
    ∀ spec, Spec.from_events yamlOk es = .ok spec →
      spec.version.val = 1 + updatedCount es := by
  induction hg with
  | create i now cmd events h =>
    obtain ⟨name, content, hn, hc, rfl⟩ := Spec.create_ok h
    obtain rfl := SpecName.new_ok hn
    obtain rfl := SpecContent.new_ok_val hc
    intro spec hf
    unfold Spec.from_events at hf
    dsimp only at hf
    rw [hn] at hf
    dsimp only at hf
    rw [hc] at hf
    dsimp only [Spec.apply_all] at hf
    cases hf
    rfl
  | step events spec0 now cmd more hg hfe hcmd ih =>
    intro spec hf
    rw [Spec.from_events_append hfe more] at hf
    have hver := ih spec0 hfe
    cases cmd with
    | create c => exact Except.noConfusion hcmd
    | update c =>
      obtain ⟨c2, hc, -, rfl⟩ := Spec.handle_update_ok hcmd
      simp only [Spec.apply_all, Spec.apply_event,
        SpecContent.new_ok_again hc] at hf
      cases hf
      rw [updatedCount_append]
      simp only [Version.new]
      rw [hver]
      rfl
    | publish c =>
      obtain ⟨-, rfl⟩ := Spec.handle_publish_ok hcmd
      simp only [Spec.apply_all, Spec.apply_event] at hf
      cases hf
      rw [updatedCount_append]
      rw [hver]
      rfl
    | deprecate c =>
      obtain ⟨-, rfl⟩ := Spec.handle_deprecate_ok hcmd
      simp only [Spec.apply_all, Spec.apply_event] at hf
      cases hf
      rw [updatedCount_append]
      rw [hver]
      rfl
    | delete c =>
      obtain ⟨-, rfl⟩ := Spec.handle_delete_ok hcmd
      simp only [Spec.apply_all, Spec.apply_event] at hf
      cases hf
      rw [updatedCount_append]
      rw [hver]
      rfl

/-- The aggregate obtained by replaying `[created ev0W, updated upNoneW]`. -/
def spec2W : Spec :=
  { id := 7, name := ⟨"auth"⟩, content := ⟨"a: 2"⟩, description := some "d",
    version := ⟨2⟩, state := .draft, created_at := 10, updated_at := 20,
    created_by := "u1", updated_by := "u2" }

/-- The aggregate obtained by replaying `[created ev0W]`. -/
def spec1W : Spec :=
  { id := 7, name := ⟨"auth"⟩, content := ⟨"a: 1"⟩, description := some "d",
    version := ⟨1⟩, state := .draft, created_at := 10, updated_at := 10,
    created_by := "u1", updated_by := "u1" }

theorem generatedW : Generated yamlAny [.created ev0W, .updated upNoneW] := by
  have h1 : Generated yamlAny [.created ev0W] :=
    Generated.create 7 10
      { name := "auth", content := "a: 1", description := some "d",
        created_by := "u1" } _ rfl
  exact Generated.step [.created ev0W] spec1W 20
    (.update ⟨7, "a: 2", none, "u2"⟩) [.updated upNoneW] h1 rfl rfl

/-- C5: replaying a command-generated stream (one `Created`, then the events
emitted by `handle_command`, in order), the aggregate's version is exactly
1 plus the number of `Updated` events in the stream; moreover
`handle_update` stamps the emitted `Updated` event with `current + 1`, and
applying a `StateChanged` event leaves the version unchanged. -/
theorem version_counts_updates (yamlOk : String → Bool) :
    (∀ (es : List SpecEvent), Generated yamlOk es →
      ∀ spec, Spec.from_events yamlOk es = .ok spec →
        spec.version.val = 1 + updatedCount es)
    ∧ (∀ (spec : Spec) (now : Instant) (cmd : UpdateSpec)
        (events : List SpecEvent),
        spec.handle_update yamlOk now cmd = .ok events →
        ∃ c, SpecContent.new yamlOk cmd.content = .ok c
          ∧ events = [.updated { spec_id := spec.id, version := spec.version.val + 1, content := c.val, description := cmd.description, updated_by := cmd.updated_by, updated_at := now }])
    ∧ (∀ (spec : Spec) (sc : SpecStateChanged),
        (spec.apply_event yamlOk (.stateChanged sc)).map Spec.version
          = some spec.version) := by
  refine ⟨?_, ?_, ?_⟩
  · intro es hg
    exact generated_version_count yamlOk hg
  · intro spec now cmd events h
    obtain ⟨c, hc, -, rfl⟩ := Spec.handle_update_ok h
    exact ⟨c, hc, rfl⟩
  · intro spec sc
    rfl

/-- C5 witness: the theorem applied to the concrete generated stream
`[Created, Updated]`, giving version `2 = 1 + 1`. -/
theorem version_counts_updates_witness :
    Spec.from_events yamlAny [.created ev0W, .updated upNoneW] = .ok spec2W
    ∧ spec2W.version.val = 1 + updatedCount [.created ev0W, .updated upNoneW] :=
  ⟨rfl, (version_counts_updates yamlAny).1 _ generatedW spec2W rfl⟩

theorem Spec.apply_all_no_panic (yamlOk : String → Bool) :
    ∀ (tail : List SpecEvent) (spec : Spec),
      (∀ ev ∈ tail, ev.isCreatedEvent = false) →
      (∀ u, SpecEvent.updated u ∈ tail →
        ∃ c, SpecContent.new yamlOk u.content = .ok c) →
      ∃ s, spec.apply_all yamlOk tail = some s := by
  intro tail
  induction tail with
  | nil => exact fun spec _ _ => ⟨spec, rfl⟩
  | cons e rest ih =>
    intro spec hnc hval
    cases e with
    | created ec =>
      have := hnc _ (List.mem_cons_self _ _)
      simp [SpecEvent.isCreatedEvent] at this
    | updated u =>
      obtain ⟨c, hc⟩ := hval u (List.mem_cons_self _ _)
      simp only [Spec.apply_all, Spec.apply_event, hc]
      exact ih _ (fun ev hev => hnc ev (List.mem_cons_of_mem _ hev))
        (fun v hv => hval v (List.mem_cons_of_mem _ hv))
    | stateChanged sc =>
      simp only [Spec.apply_all, Spec.apply_event]
      exact ih _ (fun ev hev => hnc ev (List.mem_cons_of_mem _ hev))
        (fun v hv => hval v (List.mem_cons_of_mem _ hv))

/-- C10: on a stream whose only `Created` event is the first one and whose
`Updated` events all carry content accepted by `SpecContent` validation,
`from_events` never panics (the `unwrap` in the `Updated` arm cannot fail and
the `Created`-on-existing-aggregate panic is unreachable); moreover every
`Updated` event emitted by `handle_update` carries content that passes
validation, so command-emitted streams satisfy the hypothesis. -/
theorem from_events_no_panic (yamlOk : String → Bool) (e : SpecCreated)
    (tail : List SpecEvent)
    (hnc : ∀ ev ∈ tail, ev.isCreatedEvent = false)
    (hval : ∀ u, SpecEvent.updated u ∈ tail →
      ∃ c, SpecContent.new yamlOk u.content = .ok c) :
    Spec.from_events yamlOk (.created e :: tail) ≠ Replay.panicked
    ∧ (∀ (spec : Spec) (now : Instant) (cmd : UpdateSpec)
        (events : List SpecEvent),
        spec.handle_update yamlOk now cmd = .ok events →
        ∀ u, SpecEvent.updated u ∈ events →
          ∃ c, SpecContent.new yamlOk u.content = .ok c) := by
  constructor
  · unfold Spec.from_events
    dsimp only
    cases hn : SpecName.new e.name with
    | error er => exact fun h => Replay.noConfusion h
    | ok name =>
      dsimp only
      cases hc : SpecContent.new yamlOk e.content with
      | error er => exact fun h => Replay.noConfusion h
      | ok content =>
        dsimp only
        obtain ⟨s, hs⟩ :=
          Spec.apply_all_no_panic yamlOk tail (initialSpec e name content) hnc hval
        rw [hs]
        exact fun h => Replay.noConfusion h
  · intro spec now cmd events h u hu
    obtain ⟨c, hc, -, rfl⟩ := Spec.handle_update_ok h
    simp only [List.mem_singleton] at hu
    cases hu
    exact ⟨c, SpecContent.new_ok_again hc⟩

/-- C10 witness: the theorem applied to the concrete stream
`[Created, Updated]` whose updated content `"a: 2"` validates. -/
theorem from_events_no_panic_witness :
    Spec.from_events yamlAny [.created ev0W, .updated upNoneW] ≠ Replay.panicked :=
  (from_events_no_panic yamlAny ev0W [.updated upNoneW] (by decide)
    (fun u hu => by
      simp only [List.mem_singleton] at hu
      cases hu
      exact ⟨⟨"a: 2"⟩, rfl⟩)).1

theorem proj_apply_sim (yamlOk : String → Bool) :
    ∀ (tail : List SpecEvent) (spec spec2 : Spec) (r : SpecProjection)
      (hist : List Nat),
      spec.apply_all yamlOk tail = some spec2 →
      (hist ++ updatedVersions tail).Nodup →
      MatchesRow spec r →
      ∃ r2 hist2,
        ProjectionState.apply_all ⟨some r, hist⟩ tail = .ok ⟨some r2, hist2⟩
        ∧ MatchesRow spec2 r2
        ∧ ((r.description = spec.description ∧
            ∀ u, SpecEvent.updated u ∈ tail → u.description.isSome) →
            r2.description = spec2.description) := by
  intro tail
  induction tail with
  | nil =>
    intro spec spec2 r hist ha hnd hm
    cases ha
    exact ⟨r, hist, rfl, hm, fun h => h.1⟩
  | cons e rest ih =>
    intro spec spec2 r hist ha hnd hm
    cases e with
    | created ec =>
      simp [Spec.apply_all, Spec.apply_event] at ha
    | updated u =>
      cases hc : SpecContent.new yamlOk u.content with
      | error er => simp [Spec.apply_all, Spec.apply_event, hc] at ha
      | ok c =>
        simp only [Spec.apply_all, Spec.apply_event, hc] at ha
        have heq : updatedVersions (SpecEvent.updated u :: rest)
            = u.version :: updatedVersions rest := rfl
        rw [heq] at hnd
        have hmid := List.nodup_middle.mp hnd
        have hvnotin : u.version ∉ hist := fun hmem =>
          (List.nodup_cons.mp hmid).1 (List.mem_append_left _ hmem)
        have hcontains : hist.contains u.version = false := by
          simpa using hvnotin
        have hnd2 : ((u.version :: hist) ++ updatedVersions rest).Nodup := by
          simpa using hmid
        obtain ⟨hid, hname, hcontent, hversion, hstate, hca, hua, hcb, hub⟩ := hm
        obtain ⟨r2, hist2, happ, hm2, hd2⟩ := ih
          ({ spec with content := c, description := (match u.description with | some d => some d | none => spec.description), version := Version.new u.version, updated_by := u.updated_by, updated_at := u.updated_at })
          spec2
          ({ r with content := u.content, description := u.description, version := u.version, updated_at := u.updated_at, updated_by := u.updated_by })
          (u.version :: hist) ha hnd2
          ⟨hid, hname, by rw [SpecContent.new_ok_val hc], rfl, hstate, hca, rfl,
            hcb, rfl⟩
        refine ⟨r2, hist2, ?_, hm2, ?_⟩
        · simp only [ProjectionState.apply_all, ProjectionState.apply_event,
            hcontains]
          simpa using happ
        · rintro ⟨hdesc, hall⟩
          apply hd2
          refine ⟨?_, fun v hv => hall v (List.mem_cons_of_mem _ hv)⟩
          obtain ⟨d, hd⟩ :=
            Option.isSome_iff_exists.mp (hall u (List.mem_cons_self _ _))
          simp [hd]
    | stateChanged sc =>
      simp only [Spec.apply_all, Spec.apply_event] at ha
      obtain ⟨hid, hname, hcontent, hversion, hstate, hca, hua, hcb, hub⟩ := hm
      obtain ⟨r2, hist2, happ, hm2, hd2⟩ := ih
        ({ spec with state := sc.to_state, updated_at := sc.changed_at })
        spec2
        ({ r with state := sc.to_state, updated_at := sc.changed_at })
        hist ha hnd
        ⟨hid, hname, hcontent, hversion, rfl, hca, rfl, hcb, hub⟩
      refine ⟨r2, hist2, ?_, hm2, ?_⟩
      · simp only [ProjectionState.apply_all, ProjectionState.apply_event]
        simpa using happ
      · rintro ⟨hdesc, hall⟩
        exact hd2 ⟨hdesc, fun v hv => hall v (List.mem_cons_of_mem _ hv)⟩

/-- C2 counterexample: on the stream `[Created(description = some "d"),
Updated(description = none)]` the replayed aggregate keeps description
`some "d"` while the projection row's description column is overwritten with
NULL, so the projection does not carry the same attributes as the
aggregate. -/
theorem projection_description_divergence_cex :
    ∃ s ps r, Spec.from_events yamlAny [.created ev0W, .updated upNoneW] = .ok s
      ∧ projectionOf [.created ev0W, .updated upNoneW] = .ok ps
      ∧ ps.row = some r
      ∧ s.description = some "d"
      ∧ r.description = none
      ∧ r.description ≠ s.description :=
  ⟨_, _, _, rfl, rfl, rfl, rfl, rfl, by decide⟩

/-- C2 (amended): for a stream that replays successfully and whose `Updated`
events carry pairwise-distinct versions all different from 1 (so no
version-history primary-key conflict aborts a projection transaction),
folding the projection `apply_event` yields a row agreeing with the
replayed aggregate on id, name, content, version, state, both timestamps
and both principals; the description also agrees provided every `Updated`
event carries `Some` description (an `Updated` with `None` clears the
projection column but leaves the aggregate's description unchanged). -/
theorem projection_matches_aggregate_amended (yamlOk : String → Bool)
    (e : SpecCreated) (tail : List SpecEvent) (spec : Spec)
    (hok : Spec.from_events yamlOk (.created e :: tail) = .ok spec)
    (hnd : (1 :: updatedVersions tail).Nodup) :
    ∃ ps r, projectionOf (.created e :: tail) = .ok ps ∧ ps.row = some r
      ∧ MatchesRow spec r
      ∧ ((∀ u, SpecEvent.updated u ∈ tail → u.description.isSome) →
          r.description = spec.description) := by
  unfold Spec.from_events at hok
  dsimp only at hok
  cases hn : SpecName.new e.name with
  | error er => rw [hn] at hok; exact Replay.noConfusion hok
  | ok name =>
    rw [hn] at hok
    dsimp only at hok
    cases hc : SpecContent.new yamlOk e.content with
    | error er => rw [hc] at hok; exact Replay.noConfusion hok
    | ok content =>
      rw [hc] at hok
      dsimp only at hok
      cases ha : (initialSpec e name content).apply_all yamlOk tail with
      | none => rw [ha] at hok; exact Replay.noConfusion hok
      | some s =>
        rw [ha] at hok
        cases hok
        obtain rfl := SpecName.new_ok hn
        obtain rfl := SpecContent.new_ok_val hc
        have hm0 : MatchesRow (initialSpec e ⟨e.name⟩ ⟨e.content⟩) (initialRow e) :=
          ⟨rfl, rfl, rfl, rfl, rfl, rfl, rfl, rfl, rfl⟩
        obtain ⟨r2, hist2, happ, hm2, hd2⟩ := proj_apply_sim yamlOk tail
          (initialSpec e ⟨e.name⟩ ⟨e.content⟩) spec (initialRow e) [1] ha hnd hm0
        refine ⟨⟨some r2, hist2⟩, r2, ?_, rfl, hm2, ?_⟩
        · unfold projectionOf
          simp only [ProjectionState.apply_all, ProjectionState.apply_event]
          simpa using happ
        · intro hall
          exact hd2 ⟨rfl, hall⟩

/-- The aggregate obtained by replaying `[created ev0W, updated upSomeW]`. -/
def spec3W : Spec :=
  { id := 7, name := ⟨"auth"⟩, content := ⟨"a: 2"⟩, description := some "d2",
    version := ⟨2⟩, state := .draft, created_at := 10, updated_at := 20,
    created_by := "u1", updated_by := "u2" }

/-- C2 witness: the amended theorem applied to the concrete stream
`[Created, Updated(description = some "d2")]`. -/
theorem projection_matches_aggregate_amended_witness :
    ∃ ps r, projectionOf [.created ev0W, .updated upSomeW] = .ok ps
      ∧ ps.row = some r ∧ MatchesRow spec3W r
      ∧ ((∀ u, SpecEvent.updated u ∈ ([.updated upSomeW] : List SpecEvent) →
          u.description.isSome) → r.description = spec3W.description) :=
  projection_matches_aggregate_amended yamlAny ev0W [.updated upSomeW] spec3W
    rfl (by decide)

end SpecService
